import Mathlib

set_option maxHeartbeats 1000000

/-!
Shallow embedding of the DonyanUtils concurrent batch executor
(`batch/batch_processor.py`, `batch/config.py`, `api/ark_api_utils.py`).

Modelling conventions:
* Python numbers: `int` fields are `Int`; wall-clock instants and float
  durations are `ℚ` (only ordering and affine arithmetic on them matter).
* The user task function is an oracle `Nat → AttemptOutcome β` giving, for each
  attempt index, either the exception message it raises or the value it returns
  together with the measured elapsed time of the call.
* `rate_limiter.wait_if_needed()` returns no value and only delays the caller,
  so a task's result does not depend on the limiter state; the executor records
  a `TraceEv.limiterWait` event for each admission instead.  The limiter's own
  state evolution is modelled separately (`RateLimiterState`, below).
* Thread interleavings: `wait_if_needed` holds the lock for its whole body, so
  concurrent calls serialize; a batch run's collection loop (`as_completed`)
  yields finished futures in an arbitrary completion order, modelled as an
  explicit `order : List Nat` over the submitted task indices.
-/

/-- Embedding of `batch/config.py` `BatchConfig`: a plain `@dataclass` with
default field values and no validation of any kind. -/
structure BatchConfig where
  max_workers : Int := 10
  rate_limit_per_minute : Int := 60
  rate_limit_window : Int := 60
  request_delay : ℚ := 1 / 10
  max_retries : Int := 2
  retry_delay : ℚ := 1
  timeout : ℚ := 30
deriving DecidableEq

/-- The dataclass-generated initializer of `BatchConfig`: it assigns the seven
fields and performs no validation, so it never raises (modelled as `Except` to
make "construction fails" expressible at all). -/
def BatchConfig.construct (max_workers rate_limit_per_minute rate_limit_window : Int)
    (request_delay : ℚ) (max_retries : Int) (retry_delay timeout : ℚ) :
    Except String BatchConfig :=
  Except.ok { max_workers := max_workers, rate_limit_per_minute := rate_limit_per_minute,
              rate_limit_window := rate_limit_window, request_delay := request_delay,
              max_retries := max_retries, retry_delay := retry_delay, timeout := timeout }

/-- Behaviour of one invocation of the user task function: it either raises an
exception (whose `str` is `msg`) or returns `val` after `elapsed` seconds. -/
inductive AttemptOutcome (β : Type) where
  | raises (msg : String)
  | returns (val : β) (elapsed : ℚ)
deriving DecidableEq

/-- The result dict built by `execute_single_task_with_retry`
(`batch_processor.py` lines 73–79): keys `success`, `data`, `error`,
`attempts`, `task_data`, plus `execution_time` added on a successful attempt. -/
structure TaskResult (α β : Type) where
  success : Bool
  data : Option β
  error : Option String
  attempts : Nat
  task_data : α
  execution_time : Option ℚ
deriving DecidableEq

/-- Initial value of the result dict (lines 73–79). -/
def TaskResult.init (task_data : α) : TaskResult α β :=
  { success := false, data := none, error := none, attempts := 0,
    task_data := task_data, execution_time := none }

/-- Observable side effects of the retry loop: a rate-limiter admission, an
invocation of the task function (the call always runs to completion; the
timeout is only checked afterwards), or a `time.sleep` backoff. -/
inductive TraceEv where
  | limiterWait
  | taskCall (idx : Nat)
  | sleepFor (d : ℚ)
deriving DecidableEq

/-- Everything one call of `execute_single_task_with_retry` does: the returned
result dict, the ordered side-effect trace, and the number of
`progress_tracker.update_progress` calls with `success=True` / `success=False`. -/
structure ExecOutput (α β : Type) where
  result : TaskResult α β
  trace : List TraceEv
  succUpdates : Nat
  failUpdates : Nat
deriving DecidableEq

/-- `str(TimeoutError(...))` raised at `batch_processor.py` line 95. -/
def timeoutMsg (elapsed timeout : ℚ) : String :=
  "任务执行超时: " ++ toString elapsed ++ "秒 > " ++ toString timeout ++ "秒"

/-- `str` of the `ValueError` raised by CPython's `time.sleep` on a negative
duration, as at line 109 when `config.retry_delay` is negative (nothing
validates the config, and the sleep sits inside the `except` handler, outside
any `try`, so the error escapes `execute_single_task_with_retry`). -/
def sleepValueErrorMsg : String := "sleep length must be non-negative"

/-- The attempt loop of `execute_single_task_with_retry` (lines 81–114).
`fuel` is the number of remaining iterations of `range(config.max_retries)`
and `done` the number of attempts already made (the current 0-based attempt
index).  Each iteration sets `attempts := done + 1`, admits through the rate
limiter, invokes the task function, and either finalizes a success (within the
soft timeout) or records the error and retries, sleeping `config.retry_delay`
when `attempt < config.max_retries - 1`.  That `time.sleep` raises
`ValueError` for a negative `retry_delay` and is not inside any `try`, so the
exception propagates out of the function (`Except.error`).  Falling off the
loop records one failure with the progress tracker. -/
def executeGo (f : Nat → AttemptOutcome β) (cfg : BatchConfig) :
    Nat → Nat → TaskResult α β → List TraceEv → Except String (ExecOutput α β)
  | 0, _, res, tr =>
    Except.ok { result := res, trace := tr, succUpdates := 0, failUpdates := 1 }
  | r + 1, done, res, tr =>
    let res1 : TaskResult α β := { res with attempts := done + 1 }
    let tr1 := tr ++ [TraceEv.limiterWait, TraceEv.taskCall done]
    match f done with
    | AttemptOutcome.raises m =>
      let res2 : TaskResult α β := { res1 with error := some m }
      if (done : Int) < cfg.max_retries - 1 then
        if cfg.retry_delay < 0 then Except.error sleepValueErrorMsg
        else executeGo f cfg r (done + 1) res2 (tr1 ++ [TraceEv.sleepFor cfg.retry_delay])
      else
        executeGo f cfg r (done + 1) res2 tr1
    | AttemptOutcome.returns v e =>
      if cfg.timeout < e then
        let res2 : TaskResult α β := { res1 with error := some (timeoutMsg e cfg.timeout) }
        if (done : Int) < cfg.max_retries - 1 then
          if cfg.retry_delay < 0 then Except.error sleepValueErrorMsg
          else executeGo f cfg r (done + 1) res2 (tr1 ++ [TraceEv.sleepFor cfg.retry_delay])
        else
          executeGo f cfg r (done + 1) res2 tr1
      else
        Except.ok
          { result := { res1 with success := true, data := some v, execution_time := some e },
            trace := tr1, succUpdates := 1, failUpdates := 0 }

/-- `execute_single_task_with_retry(task_func, task_data, config, ...)`:
run the attempt loop over `range(config.max_retries)` (empty when
`max_retries ≤ 0`, matching Python `range`).  `Except.ok` is a normal return;
`Except.error` is an exception escaping the function (the backoff sleep's
`ValueError` on a negative `retry_delay`). -/
def execute_single_task_with_retry (f : Nat → AttemptOutcome β) (task_data : α)
    (cfg : BatchConfig) : Except String (ExecOutput α β) :=
  executeGo f cfg cfg.max_retries.toNat 0 (TaskResult.init task_data) []

/-- The error dict built by the collection loop of `parallel_batch_processor`
(lines 219–225) when `future.result()` itself raises — i.e. when something
escaped `execute_single_task_with_retry` (an unexpected worker fault). -/
def errorResult (msg : String) (task_data : α) : TaskResult α β :=
  { success := false, data := none, error := some ("未捕获异常: " ++ msg),
    attempts := 0, task_data := task_data, execution_time := none }

/-- Final `progress_tracker.get_stats()` counters (`batch_processor.py`
lines 40–50), restricted to the integer counters; `elapsed_time`,
`success_rate` and `tasks_per_second` are wall-clock observability values
outside the embedding. -/
structure BatchStats where
  total_tasks : Nat
  completed_tasks : Nat
  failed_tasks : Nat
deriving DecidableEq

/-- The dict returned by `parallel_batch_processor` (lines 250–255). -/
structure BatchReport (α β : Type) where
  results : List (TaskResult α β)
  stats : BatchStats
  successful_results : List (Option β)
  failed_tasks : List (TaskResult α β)
deriving DecidableEq

/-- What the collection loop appends for the future of task index `i`
(lines 212–227): the worker's returned result dict; when
`execute_single_task_with_retry` itself raised (the backoff sleep's
`ValueError`) or the pool faulted (`worker i = some msg`), `future.result()`
re-raises and the `except` branch substitutes the error dict.  `none` only
for an index with no submitted task (unreachable when `order` enumerates
`range tasks.length`). -/
def collectedResult (f : Nat → Nat → AttemptOutcome β) (worker : Nat → Option String)
    (cfg : BatchConfig) (tasks : List α) (i : Nat) : Option (TaskResult α β) :=
  (tasks[i]?).map (fun td =>
    match worker i with
    | some msg => errorResult msg td
    | none =>
      match execute_single_task_with_retry (f i) td cfg with
      | Except.ok out => out.result
      | Except.error msg => errorResult msg td)

/-- `parallel_batch_processor(tasks, task_func, config)` (lines 117–255).
`f i` is the attempt oracle of the task at input index `i`; `worker i` is
`some msg` when the worker future for index `i` raises (a pool fault),
`none` when it returns normally; `order` is the completion order in which
`as_completed` yields the futures.  Empty input short-circuits (line 173).
Otherwise the `RateLimiter` constructor validates `rate_limit_per_minute`
then `rate_limit_window` (line 188, raising `ValueError`), and
`ThreadPoolExecutor` rejects non-positive `max_workers` (line 193); the
collection loop then appends one result dict per completed future in
completion order, and the report is assembled from `all_results`.  The
`completed`/`failed` counters equal the tracker's totals because each task
contributes exactly one `update_progress` call, with `success=True`
exactly when its result dict has `success == True`. -/
def parallel_batch_processor (tasks : List α) (f : Nat → Nat → AttemptOutcome β)
    (worker : Nat → Option String) (cfg : BatchConfig) (order : List Nat) :
    Except String (BatchReport α β) :=
  if tasks.isEmpty then
    Except.ok { results := [],
                stats := { total_tasks := 0, completed_tasks := 0, failed_tasks := 0 },
                successful_results := [], failed_tasks := [] }
  else if cfg.rate_limit_per_minute ≤ 0 then
    Except.error "max_requests 必须大于 0"
  else if cfg.rate_limit_window ≤ 0 then
    Except.error "window_seconds 必须大于 0"
  else if cfg.max_workers ≤ 0 then
    Except.error "max_workers must be greater than 0"
  else
    let all_results := order.filterMap (collectedResult f worker cfg tasks)
    Except.ok
      { results := all_results
        stats := { total_tasks := tasks.length
                   completed_tasks := (all_results.filter (fun r => r.success)).length
                   failed_tasks := (all_results.filter (fun r => !r.success)).length }
        successful_results := (all_results.filter (fun r => r.success)).map (fun r => r.data)
        failed_tasks := all_results.filter (fun r => !r.success) }

/-- Lookup in the dict comprehension of `simple_parallel_map` (line 280):
`dict` keeps the LAST binding for a repeated key, so look from the right. -/
def dictGet (m : List (String × TaskResult α β)) (key : String) :
    Option (TaskResult α β) :=
  (m.reverse.find? (fun p => p.1 == key)).map (fun p => p.2)

/-- The configuration built at line 276: `BatchConfig(max_workers=max_workers,
max_retries=1, rate_limit_per_minute=max_workers * 60)`, remaining fields at
their dataclass defaults (in particular `timeout = 30.0`,
`rate_limit_window = 60`). -/
def spmConfig (max_workers : Int) : BatchConfig :=
  { max_workers := max_workers, max_retries := 1,
    rate_limit_per_minute := max_workers * 60 }

/-- `simple_parallel_map(tasks, task_func, max_workers)` (lines 258–291):
run `parallel_batch_processor` with `spmConfig max_workers`, build a dict
keyed by `str(task_data)` (`strFn` embeds Python `str`), then rebuild the
output in original input order, emitting the result's `data` for a found
successful entry and `None` otherwise. -/
def simple_parallel_map (tasks : List α) (strFn : α → String)
    (f : Nat → Nat → AttemptOutcome β) (worker : Nat → Option String)
    (max_workers : Int) (order : List Nat) : Except String (List (Option β)) :=
  (parallel_batch_processor tasks f worker (spmConfig max_workers) order).map (fun report =>
    let task_map := report.results.map (fun r => (strFn r.task_data, r))
    tasks.map (fun td =>
      match dictGet task_map (strFn td) with
      | some r => if r.success then r.data else none
      | none => none))

/-- State of `api/ark_api_utils.py` `RateLimiter`: the configured bounds, the
recorded admission timestamps `requests_times`, and the diagnostic counter. -/
structure RateLimiterState where
  max_requests : Int
  window_seconds : Int
  requests_times : List ℚ
  total_api_calls : Nat
deriving DecidableEq

/-- `RateLimiter.__init__` (lines 24–43): rejects non-positive `max_requests`
then non-positive `window_seconds`, otherwise starts with an empty log. -/
def RateLimiter.construct (max_requests window_seconds : Int) :
    Except String RateLimiterState :=
  if max_requests ≤ 0 then Except.error "max_requests 必须大于 0"
  else if window_seconds ≤ 0 then Except.error "window_seconds 必须大于 0"
  else Except.ok { max_requests := max_requests, window_seconds := window_seconds,
                   requests_times := [], total_api_calls := 0 }

/-- The freshly initialized limiter state for given (already validated)
bounds: empty timestamp log, zero call counter. -/
def RateLimiter.initState (max_requests window_seconds : Int) : RateLimiterState :=
  { max_requests := max_requests, window_seconds := window_seconds,
    requests_times := [], total_api_calls := 0 }

/-- One call of `wait_if_needed` reads the clock up to three times:
`t1` at entry (line 51), `t2` after the sleep (line 65; equal to any value
≥ `t1` when no sleep happens — the branch then never reads it), and `t3` at
the append (line 70). -/
structure RLCall where
  t1 : ℚ
  t2 : ℚ
  t3 : ℚ
deriving DecidableEq

/-- The purge at lines 54 and 66: keep timestamps still inside the window. -/
def purgeOld (times : List ℚ) (now : ℚ) (window : ℚ) : List ℚ :=
  times.filter (fun t => now - t < window)

/-- The sleep duration computed at line 59:
`(oldest_request_time + window_seconds) - current_time + 0.01`, where
`oldest_request_time` is the head of the freshly purged log. -/
def waitAmount (st : RateLimiterState) (t1 : ℚ) : ℚ :=
  (purgeOld st.requests_times t1 (st.window_seconds : ℚ)).headD 0
    + (st.window_seconds : ℚ) - t1 + 1 / 100

/-- `wait_if_needed` (lines 45–71), whose whole body runs under the lock:
purge at `t1`; if the purged log has reached `max_requests`, compute the wait
and, when positive, sleep then re-purge at `t2`; finally append `t3` and bump
the call counter. -/
def wait_if_needed (st : RateLimiterState) (c : RLCall) : RateLimiterState :=
  let W : ℚ := st.window_seconds
  let l1 := purgeOld st.requests_times c.t1 W
  let l2 :=
    if st.max_requests ≤ (l1.length : Int) then
      if 0 < waitAmount st c.t1 then purgeOld l1 c.t2 W else l1
    else l1
  { st with requests_times := l2 ++ [c.t3],
            total_api_calls := st.total_api_calls + 1 }

/-- The instant of the last purge performed by a `wait_if_needed` call:
`t2` when the call slept (and re-purged), `t1` otherwise. -/
def finalCheckTime (st : RateLimiterState) (c : RLCall) : ℚ :=
  if st.max_requests ≤ ((purgeOld st.requests_times c.t1 (st.window_seconds : ℚ)).length : Int)
      ∧ 0 < waitAmount st c.t1
  then c.t2 else c.t1

/-- Physical validity of one serialized `wait_if_needed` call: the monotonic
clock readings do not go backwards (`tprev` is the previous call's `t3`), and
`time.sleep(wait_time)` suspends for at least `wait_time` when taken. -/
def CallOk (st : RateLimiterState) (tprev : ℚ) (c : RLCall) : Prop :=
  tprev ≤ c.t1 ∧ c.t1 ≤ c.t2 ∧ c.t2 ≤ c.t3 ∧
  (st.max_requests ≤ ((purgeOld st.requests_times c.t1 (st.window_seconds : ℚ)).length : Int) →
    0 < waitAmount st c.t1 → c.t1 + waitAmount st c.t1 ≤ c.t2)

instance (st : RateLimiterState) (tprev : ℚ) (c : RLCall) : Decidable (CallOk st tprev c) := by
  unfold CallOk; infer_instance

/-- A physically valid serialized sequence of `wait_if_needed` calls starting
from state `st`, the clock having last read `tprev`. -/
def ValidSeq (st : RateLimiterState) (tprev : ℚ) : List RLCall → Prop
  | [] => True
  | c :: cs => CallOk st tprev c ∧ ValidSeq (wait_if_needed st c) c.t3 cs

instance instDecValidSeq (st : RateLimiterState) (tprev : ℚ) :
    (cs : List RLCall) → Decidable (ValidSeq st tprev cs)
  | [] => by unfold ValidSeq; infer_instance
  | c :: cs =>
    have : Decidable (ValidSeq (wait_if_needed st c) c.t3 cs) :=
      instDecValidSeq (wait_if_needed st c) c.t3 cs
    by unfold ValidSeq; infer_instance

/-- Run a sequence of serialized `wait_if_needed` calls. -/
def runLimiter (st : RateLimiterState) (cs : List RLCall) : RateLimiterState :=
  cs.foldl wait_if_needed st

/-- Inductive invariant of the serialized limiter.  `past` is the full list of
admission instants (each call's `t3`) recorded so far, `tprev` the last clock
reading.  The state's log is a suffix of `past` (purges only drop expired
entries from the sorted front), holds at most `N` entries, and every entry
dropped so far had already aged past the window at some instant `≤ tprev`. -/
def LimiterInv (N : Int) (W : ℚ) (past : List ℚ) (tprev : ℚ)
    (st : RateLimiterState) : Prop :=
  st.max_requests = N ∧ (st.window_seconds : ℚ) = W ∧
  past.Pairwise (· ≤ ·) ∧ (∀ x ∈ past, x ≤ tprev) ∧
  ∃ d, d ≤ past.length ∧ st.requests_times = past.drop d ∧
    ((st.requests_times.length : Int) ≤ N) ∧
    ∀ j, j < d → ∀ x, past[j]? = some x → x + W ≤ tprev

/-! ### Helper lemmas about the retry loop -/

/-- One-step unfolding of the loop when the current attempt raises `m`:
when a retry follows, the backoff sleep raises for a negative `retry_delay`
and otherwise records a `sleepFor` event. -/
theorem executeGo_step_raises (f : Nat → AttemptOutcome β) (cfg : BatchConfig) (m : String)
    (r done : Nat) (res : TaskResult α β) (tr : List TraceEv)
    (hm : f done = AttemptOutcome.raises m) :
    executeGo f cfg (r + 1) done res tr =
      if (done : Int) < cfg.max_retries - 1 then
        if cfg.retry_delay < 0 then Except.error sleepValueErrorMsg
        else
          executeGo f cfg r (done + 1) { res with attempts := done + 1, error := some m }
            (tr ++ [TraceEv.limiterWait, TraceEv.taskCall done]
              ++ [TraceEv.sleepFor cfg.retry_delay])
      else
        executeGo f cfg r (done + 1) { res with attempts := done + 1, error := some m }
          (tr ++ [TraceEv.limiterWait, TraceEv.taskCall done]) := by
  rw [executeGo, hm]

/-- `executeGo_step_raises` under a non-negative `retry_delay`: the sleep
always returns and the loop continues. -/
theorem executeGo_step_raises_nonneg (f : Nat → AttemptOutcome β) (cfg : BatchConfig)
    (m : String) (r done : Nat) (res : TaskResult α β) (tr : List TraceEv)
    (hd : 0 ≤ cfg.retry_delay) (hm : f done = AttemptOutcome.raises m) :
    executeGo f cfg (r + 1) done res tr =
      executeGo f cfg r (done + 1) { res with attempts := done + 1, error := some m }
        (if (done : Int) < cfg.max_retries - 1 then
          tr ++ [TraceEv.limiterWait, TraceEv.taskCall done] ++ [TraceEv.sleepFor cfg.retry_delay]
         else tr ++ [TraceEv.limiterWait, TraceEv.taskCall done]) := by
  rw [executeGo_step_raises f cfg m r done res tr hm]
  by_cases hc : (done : Int) < cfg.max_retries - 1 <;> simp [hc, not_lt.mpr hd]

/-- One-step unfolding when the current attempt returns after the soft
timeout: identical in shape to a raise of the timeout message. -/
theorem executeGo_step_timeout (f : Nat → AttemptOutcome β) (cfg : BatchConfig) (v : β) (e : ℚ)
    (r done : Nat) (res : TaskResult α β) (tr : List TraceEv)
    (hm : f done = AttemptOutcome.returns v e) (he : cfg.timeout < e) :
    executeGo f cfg (r + 1) done res tr =
      if (done : Int) < cfg.max_retries - 1 then
        if cfg.retry_delay < 0 then Except.error sleepValueErrorMsg
        else
          executeGo f cfg r (done + 1)
            { res with attempts := done + 1, error := some (timeoutMsg e cfg.timeout) }
            (tr ++ [TraceEv.limiterWait, TraceEv.taskCall done]
              ++ [TraceEv.sleepFor cfg.retry_delay])
      else
        executeGo f cfg r (done + 1)
          { res with attempts := done + 1, error := some (timeoutMsg e cfg.timeout) }
          (tr ++ [TraceEv.limiterWait, TraceEv.taskCall done]) := by
  rw [executeGo, hm]
  simp [he]

/-- One-step unfolding when the current attempt succeeds within the timeout:
the loop finalizes the success result. -/
theorem executeGo_step_success (f : Nat → AttemptOutcome β) (cfg : BatchConfig) (v : β) (e : ℚ)
    (r done : Nat) (res : TaskResult α β) (tr : List TraceEv)
    (hm : f done = AttemptOutcome.returns v e) (he : e ≤ cfg.timeout) :
    executeGo f cfg (r + 1) done res tr =
      Except.ok
        { result :=
            { res with
                attempts := done + 1, success := true, data := some v,
                execution_time := some e },
          trace := tr ++ [TraceEv.limiterWait, TraceEv.taskCall done],
          succUpdates := 1, failUpdates := 0 } := by
  rw [executeGo, hm]
  simp [not_lt.mpr he]

/-- When the task function raises on every attempt and the backoff delay is
non-negative (so no sleep raises), the loop runs all `r` remaining
iterations and returns normally, leaving `success`/`data`/`task_data`
untouched, ending with `attempts = done + r`, a recorded error, and a single
failure update. -/
theorem executeGo_fail_all (f : Nat → AttemptOutcome β) (cfg : BatchConfig)
    (hf : ∀ i, ∃ m, f i = AttemptOutcome.raises m) (hd : 0 ≤ cfg.retry_delay)
    (r done : Nat) (res : TaskResult α β) (tr : List TraceEv) (hr : 1 ≤ r) :
    ∃ out : ExecOutput α β, executeGo f cfg r done res tr = Except.ok out ∧
      out.result.success = res.success ∧
      out.result.data = res.data ∧
      out.result.task_data = res.task_data ∧
      out.result.attempts = done + r ∧
      (∃ m, out.result.error = some m) ∧
      out.succUpdates = 0 ∧
      out.failUpdates = 1 := by
  induction r generalizing done res tr with
  | zero => omega
  | succ n ih =>
    obtain ⟨m, hm⟩ := hf done
    rw [executeGo_step_raises_nonneg f cfg m n done res tr hd hm]
    cases n with
    | zero =>
      refine ⟨_, by rw [executeGo], rfl, rfl, rfl, ?_, ⟨m, rfl⟩, rfl, rfl⟩
      simp
    | succ k =>
      obtain ⟨out, hout, h1, h2, h3, h4, h5, h6, h7⟩ :=
        ih (done + 1) { res with attempts := done + 1, error := some m } _ (by omega)
      exact ⟨out, hout, h1, h2, h3, by omega, h5, h6, h7⟩

/-- Replacing an attempt that returns after the soft timeout by an attempt
that raises the timeout message changes nothing: the loop's outcome —
normal return with result dict, side-effect trace and tracker updates, or an
escaping backoff `ValueError` — is identical. -/
theorem executeGo_timeout_substitution (f : Nat → AttemptOutcome β) (cfg : BatchConfig)
    (k : Nat) (v : β) (e : ℚ) (hk : f k = AttemptOutcome.returns v e)
    (he : cfg.timeout < e) (r : Nat) :
    ∀ (done : Nat) (res : TaskResult α β) (tr : List TraceEv),
      executeGo f cfg r done res tr =
      executeGo (fun i => if i = k then AttemptOutcome.raises (timeoutMsg e cfg.timeout) else f i)
        cfg r done res tr := by
  induction r with
  | zero => intro done res tr; rfl
  | succ n ih =>
    intro done res tr
    by_cases hd : done = k
    · subst hd
      rw [executeGo_step_timeout f cfg v e n done res tr hk he,
        executeGo_step_raises _ cfg (timeoutMsg e cfg.timeout) n done res tr (by simp)]
      split_ifs with h1 h2
      · rfl
      · exact ih _ _ _
      · exact ih _ _ _
    · rcases hfd : f done with m | ⟨v2, e2⟩
      · rw [executeGo_step_raises f cfg m n done res tr hfd,
          executeGo_step_raises _ cfg m n done res tr (by simp [hd, hfd])]
        split_ifs with h1 h2
        · rfl
        · exact ih _ _ _
        · exact ih _ _ _
      · by_cases he2 : cfg.timeout < e2
        · rw [executeGo_step_timeout f cfg v2 e2 n done res tr hfd he2,
            executeGo_step_timeout _ cfg v2 e2 n done res tr (by simp [hd, hfd]) he2]
          split_ifs with h1 h2
          · rfl
          · exact ih _ _ _
          · exact ih _ _ _
        · rw [executeGo_step_success f cfg v2 e2 n done res tr hfd (not_lt.mp he2),
            executeGo_step_success _ cfg v2 e2 n done res tr (by simp [hd, hfd]) (not_lt.mp he2)]

/-- When the task function raises on the first `k` attempts (counting from
index `done`), the backoff delay is non-negative, and invocation `k` returns
within the soft timeout, the loop returns normally with a success at attempt
`done + k + 1` and one success update. -/
theorem executeGo_succeeds_at (f : Nat → AttemptOutcome β) (cfg : BatchConfig) (v : β) (e : ℚ)
    (he : e ≤ cfg.timeout) (hd : 0 ≤ cfg.retry_delay) (k : Nat) :
    ∀ (r done : Nat) (res : TaskResult α β) (tr : List TraceEv),
      k < r →
      (∀ i, i < k → ∃ m, f (done + i) = AttemptOutcome.raises m) →
      f (done + k) = AttemptOutcome.returns v e →
      ∃ out : ExecOutput α β, executeGo f cfg r done res tr = Except.ok out ∧
        out.result.success = true ∧
        out.result.attempts = done + k + 1 ∧
        out.result.data = some v ∧
        out.result.task_data = res.task_data ∧
        out.succUpdates = 1 ∧
        out.failUpdates = 0 := by
  induction k with
  | zero =>
    intro r done res tr hr _ hret
    obtain ⟨n, rfl⟩ : ∃ n, r = n + 1 := ⟨r - 1, by omega⟩
    rw [Nat.add_zero] at hret
    rw [executeGo_step_success f cfg v e n done res tr hret he]
    exact ⟨_, rfl, rfl, by simp, rfl, rfl, rfl, rfl⟩
  | succ k ih =>
    intro r done res tr hr hfail hret
    obtain ⟨n, rfl⟩ : ∃ n, r = n + 1 := ⟨r - 1, by omega⟩
    obtain ⟨m, hm⟩ := hfail 0 (by omega)
    rw [Nat.add_zero] at hm
    rw [executeGo_step_raises_nonneg f cfg m n done res tr hd hm]
    obtain ⟨out, hout, h1, h2, h3, h4, h5, h6⟩ :=
      ih n (done + 1) { res with attempts := done + 1, error := some m } _ (by omega)
        (fun i hi => by
          have := hfail (i + 1) (by omega)
          simpa [Nat.add_comm, Nat.add_assoc, Nat.add_left_comm] using this)
        (by
          have := hret
          simpa [Nat.add_comm, Nat.add_assoc, Nat.add_left_comm] using this)
    exact ⟨out, hout, h1, by omega, h3, h4, h5, h6⟩

/-! ### Claims about the retry executor -/

/-- C9: when `config.max_retries == 0`, `execute_single_task_with_retry` never
invokes the task function or the rate limiter (its side-effect trace is
empty), records exactly one failure and no success in the progress tracker,
and returns normally with `success == False`, `attempts == 0`,
`error == None` — zero attempts mean immediate failure, not a coerced single
attempt. -/
theorem exec_zero_retries_immediate_failure (f : Nat → AttemptOutcome β) (td : α)
    (cfg : BatchConfig) (h : cfg.max_retries = 0) :
    execute_single_task_with_retry f td cfg =
      Except.ok
        { result :=
            { success := false, data := none, error := none, attempts := 0,
              task_data := td, execution_time := none },
          trace := [], succUpdates := 0, failUpdates := 1 } := by
  unfold execute_single_task_with_retry
  rw [h]
  rfl

/-- Witness for C9 at a concrete task function and configuration. -/
theorem exec_zero_retries_immediate_failure_witness :
    ({ max_retries := 0 : BatchConfig }).max_retries = 0 ∧
    execute_single_task_with_retry
        (fun _ : Nat => (AttemptOutcome.raises "boom" : AttemptOutcome Nat)) (7 : Nat)
        { max_retries := 0 } =
      Except.ok
        { result :=
            { success := false, data := none, error := none, attempts := 0,
              task_data := (7 : Nat), execution_time := none },
          trace := [], succUpdates := 0, failUpdates := 1 } :=
  ⟨rfl, exec_zero_retries_immediate_failure
    (fun _ : Nat => (AttemptOutcome.raises "boom" : AttemptOutcome Nat)) 7
    { max_retries := 0 } rfl⟩

/-- C4 counterexamples, both from the unvalidated configuration space.
With `max_retries = 0` and an always-raising task, the call returns the
initial dict: `success == False` and `attempts == 0 == max_retries` as
claimed, but `error` is `None`, not a non-empty description.  With
`max_retries = 2` and `retry_delay = -1`, the backoff `time.sleep` after the
first failed attempt raises `ValueError` out of the function, so no result
with `attempts == max_retries` is returned at all. -/
theorem exec_always_fail_unvalidated_config_failures :
    (execute_single_task_with_retry
        (fun _ : Nat => (AttemptOutcome.raises "boom" : AttemptOutcome Nat)) (0 : Nat)
        { max_retries := 0 } =
      Except.ok
        { result :=
            { success := false, data := none, error := none, attempts := 0,
              task_data := (0 : Nat), execution_time := none },
          trace := [], succUpdates := 0, failUpdates := 1 }) ∧
    (execute_single_task_with_retry
        (fun _ : Nat => (AttemptOutcome.raises "boom" : AttemptOutcome Nat)) (0 : Nat)
        { max_retries := 2, retry_delay := -1 } =
      Except.error sleepValueErrorMsg) :=
  ⟨rfl, rfl⟩

/-- C4 (amended): for every configuration with `max_retries ≥ 1` and a
non-negative `retry_delay` (so the backoff sleep cannot raise), if the task
function raises on every invocation, `execute_single_task_with_retry` returns
normally with `success == False`, `attempts == config.max_retries`, and a
recorded (non-`None`) error description. -/
theorem exec_always_fail_exhausts_retries (f : Nat → AttemptOutcome β) (td : α)
    (cfg : BatchConfig) (hf : ∀ i, ∃ m, f i = AttemptOutcome.raises m)
    (hr : 1 ≤ cfg.max_retries) (hdel : 0 ≤ cfg.retry_delay) :
    ∃ out : ExecOutput α β, execute_single_task_with_retry f td cfg = Except.ok out ∧
      out.result.success = false ∧
      (out.result.attempts : Int) = cfg.max_retries ∧
      out.result.error ≠ none := by
  obtain ⟨out, hout, h1, _, _, h4, ⟨m, hm⟩, _, _⟩ :=
    executeGo_fail_all f cfg hf hdel cfg.max_retries.toNat 0 (TaskResult.init td) []
      (by omega)
  refine ⟨out, hout, ?_, ?_, ?_⟩
  · rw [h1]; rfl
  · omega
  · rw [hm]; simp

/-- Witness for C4 (amended) at a concrete always-raising task function and
the default configuration (`max_retries = 2`, `retry_delay = 1`). -/
theorem exec_always_fail_exhausts_retries_witness :
    (∀ i : Nat, ∃ m, (fun _ : Nat => (AttemptOutcome.raises "boom" : AttemptOutcome Nat)) i
        = AttemptOutcome.raises m) ∧
    1 ≤ ({} : BatchConfig).max_retries ∧
    (0 : ℚ) ≤ ({} : BatchConfig).retry_delay ∧
    (∃ out : ExecOutput Nat Nat,
      execute_single_task_with_retry
          (fun _ : Nat => (AttemptOutcome.raises "boom" : AttemptOutcome Nat)) (0 : Nat) {}
        = Except.ok out ∧
      out.result.success = false ∧
      (out.result.attempts : Int) = ({} : BatchConfig).max_retries ∧
      out.result.error ≠ none) :=
  ⟨fun _ => ⟨"boom", rfl⟩, by decide, by norm_num [BatchConfig.retry_delay],
    exec_always_fail_exhausts_retries _ 0 {} (fun _ => ⟨"boom", rfl⟩) (by decide)
      (by norm_num [BatchConfig.retry_delay])⟩

/-- C5 counterexample: with the (unvalidated) configuration
`max_retries = 2, retry_delay = -1`, a task that raises once and then would
succeed within the timeout never reaches its second invocation — the backoff
`time.sleep(-1)` after the first failure raises `ValueError` out of
`execute_single_task_with_retry`, so no `success == True, attempts == 2`
result is returned. -/
theorem exec_retry_sleep_raises_on_negative_delay :
    ((1 : Int) < ({ max_retries := 2, retry_delay := -1 } : BatchConfig).max_retries) ∧
    ((fun i => if i = 1 then AttemptOutcome.returns (42 : Nat) 1
        else AttemptOutcome.raises "x") 0 = AttemptOutcome.raises "x") ∧
    ((fun i => if i = 1 then AttemptOutcome.returns (42 : Nat) 1
        else AttemptOutcome.raises "x") 1 = AttemptOutcome.returns 42 1) ∧
    ((1 : ℚ) ≤ ({ max_retries := 2, retry_delay := -1 } : BatchConfig).timeout) ∧
    execute_single_task_with_retry
        (fun i => if i = 1 then AttemptOutcome.returns (42 : Nat) 1
          else AttemptOutcome.raises "x") (0 : Nat)
        { max_retries := 2, retry_delay := -1 }
      = Except.error sleepValueErrorMsg := by
  refine ⟨by decide, rfl, rfl, ?_, rfl⟩
  norm_num [BatchConfig.timeout]

/-- C5 (amended): for every `k < config.max_retries` and every configuration
with a non-negative `retry_delay` (so the backoff sleeps between failures
cannot raise), if the task function raises on its first `k` invocations and
returns within the soft timeout on invocation `k+1`,
`execute_single_task_with_retry` returns normally with `success == True` and
`attempts == k + 1`. -/
theorem exec_k_failures_then_success (f : Nat → AttemptOutcome β) (td : α)
    (cfg : BatchConfig) (k : Nat) (v : β) (e : ℚ) (hk : (k : Int) < cfg.max_retries)
    (hfail : ∀ i, i < k → ∃ m, f i = AttemptOutcome.raises m)
    (hret : f k = AttemptOutcome.returns v e) (he : e ≤ cfg.timeout)
    (hdel : 0 ≤ cfg.retry_delay) :
    ∃ out : ExecOutput α β, execute_single_task_with_retry f td cfg = Except.ok out ∧
      out.result.success = true ∧
      out.result.attempts = k + 1 := by
  obtain ⟨out, hout, h1, h2, _, _, _, _⟩ :=
    executeGo_succeeds_at f cfg v e he hdel k cfg.max_retries.toNat 0 (TaskResult.init td) []
      (by omega) (fun i hi => by simpa using hfail i hi) (by simpa using hret)
  exact ⟨out, hout, h1, by omega⟩

/-- Witness for C5 (amended) with `k = 1` failures, a success at the second
attempt, and the default configuration. -/
theorem exec_k_failures_then_success_witness :
    ((1 : Int) < ({} : BatchConfig).max_retries) ∧
    ((1 : ℚ) ≤ ({} : BatchConfig).timeout) ∧
    ((0 : ℚ) ≤ ({} : BatchConfig).retry_delay) ∧
    (∃ out : ExecOutput Nat Nat,
      execute_single_task_with_retry
          (fun i => if i = 1 then AttemptOutcome.returns (42 : Nat) 1
            else AttemptOutcome.raises "x") (0 : Nat) {}
        = Except.ok out ∧
      out.result.success = true ∧
      out.result.attempts = 2) := by
  refine ⟨by decide, by norm_num [BatchConfig.timeout],
    by norm_num [BatchConfig.retry_delay], ?_⟩
  exact exec_k_failures_then_success
    (fun i => if i = 1 then AttemptOutcome.returns (42 : Nat) 1 else AttemptOutcome.raises "x")
    (0 : Nat) {} 1 42 1 (by decide)
    (fun i hi => ⟨"x", by
      obtain rfl : i = 0 := Nat.lt_one_iff.mp hi
      rfl⟩) rfl
    (by norm_num [BatchConfig.timeout]) (by norm_num [BatchConfig.retry_delay])

/-- C6: an attempt whose call returns normally but whose measured elapsed time
exceeds `config.timeout` behaves exactly — same outcome, whether a normal
return with the same result dict, side-effect trace (including the backoff
sleep) and tracker updates, or the same escaping backoff error — as an
attempt in which the task function raised the timeout error; the in-flight
call itself still ran to completion (its `taskCall` event is in the trace),
it is only flagged afterwards. -/
theorem exec_soft_timeout_treated_as_raise (f : Nat → AttemptOutcome β) (td : α)
    (cfg : BatchConfig) (k : Nat) (v : β) (e : ℚ)
    (hk : f k = AttemptOutcome.returns v e) (he : cfg.timeout < e) :
    execute_single_task_with_retry f td cfg =
    execute_single_task_with_retry
      (fun i => if i = k then AttemptOutcome.raises (timeoutMsg e cfg.timeout) else f i)
      td cfg :=
  executeGo_timeout_substitution f cfg k v e hk he cfg.max_retries.toNat 0
    (TaskResult.init td) []

/-- Witness for C6: a first attempt returning after 31 seconds against the
default 30-second timeout. -/
theorem exec_soft_timeout_treated_as_raise_witness :
    (({} : BatchConfig).timeout < (31 : ℚ)) ∧
    execute_single_task_with_retry
        (fun _ : Nat => (AttemptOutcome.returns (5 : Nat) 31 : AttemptOutcome Nat)) (0 : Nat) {} =
      execute_single_task_with_retry
        (fun i => if i = 0 then
            AttemptOutcome.raises (timeoutMsg 31 ({} : BatchConfig).timeout)
          else (AttemptOutcome.returns (5 : Nat) 31 : AttemptOutcome Nat)) (0 : Nat) {} :=
  ⟨by norm_num [BatchConfig.timeout],
    exec_soft_timeout_treated_as_raise _ 0 {} 0 5 31 rfl (by norm_num [BatchConfig.timeout])⟩

/-! ### Helper lemmas about the orchestrator -/

/-- The retry loop never changes the `task_data` field of the result dict of
a normal return. -/
theorem executeGo_task_data (f : Nat → AttemptOutcome β) (cfg : BatchConfig) (r : Nat) :
    ∀ (done : Nat) (res : TaskResult α β) (tr : List TraceEv) (out : ExecOutput α β),
      executeGo f cfg r done res tr = Except.ok out →
      out.result.task_data = res.task_data := by
  induction r with
  | zero =>
    intro done res tr out hout
    rw [executeGo] at hout
    rw [← Except.ok.inj hout]
  | succ n ih =>
    intro done res tr out hout
    rcases hfd : f done with m | ⟨v, e⟩
    · rw [executeGo_step_raises f cfg m n done res tr hfd] at hout
      split_ifs at hout with h1 h2
      all_goals first
        | exact Except.noConfusion hout
        | (have hih := ih _ _ _ _ hout
           exact hih)
    · by_cases he : cfg.timeout < e
      · rw [executeGo_step_timeout f cfg v e n done res tr hfd he] at hout
        split_ifs at hout with h1 h2
        all_goals first
          | exact Except.noConfusion hout
          | (have hih := ih _ _ _ _ hout
             exact hih)
      · rw [executeGo_step_success f cfg v e n done res tr hfd (not_lt.mp he)] at hout
        rw [← Except.ok.inj hout]

/-- `task_data` preservation at the `execute_single_task_with_retry` level. -/
theorem execute_ok_task_data (f : Nat → AttemptOutcome β) (td : α) (cfg : BatchConfig)
    (out : ExecOutput α β)
    (hout : execute_single_task_with_retry f td cfg = Except.ok out) :
    out.result.task_data = td :=
  executeGo_task_data f cfg cfg.max_retries.toNat 0 (TaskResult.init td) [] out hout

/-- Whatever the collection loop appends for index `i` — a worker's returned
result dict, or the substitute fault dict for an escaped exception or pool
fault — carries `task_data = tasks[i]`. -/
theorem collectedResult_task_data (f : Nat → Nat → AttemptOutcome β)
    (worker : Nat → Option String) (cfg : BatchConfig) (tasks : List α) (i : Nat) :
    (collectedResult f worker cfg tasks i).map (fun r => r.task_data) = tasks[i]? := by
  unfold collectedResult
  cases h : tasks[i]? with
  | none => rfl
  | some td =>
    cases hw : worker i with
    | some msg => simp [hw, errorResult]
    | none =>
      cases hex : execute_single_task_with_retry (f i) td cfg with
      | ok out => simp [hw, hex, execute_ok_task_data (f i) td cfg out hex]
      | error msg => simp [hw, hex, errorResult]

/-- Collecting `l[i]?` over `range l.length` rebuilds `l`. -/
theorem filterMap_getElem_range (l : List γ) :
    (List.range l.length).filterMap (fun i => l[i]?) = l := by
  induction l with
  | nil => rfl
  | cons a t ih =>
    rw [List.length_cons, List.range_succ_eq_map, List.filterMap_cons]
    simp only [List.getElem?_cons_zero, List.filterMap_map]
    have hcomp : ((fun i => (a :: t)[i]?) ∘ Nat.succ) = fun i => t[i]? := by
      funext i
      simp
    rw [hcomp, ih]

/-- On a non-empty input with a configuration passing the `RateLimiter` and
`ThreadPoolExecutor` checks, `parallel_batch_processor` returns the assembled
report. -/
theorem pbp_nonempty_ok (tasks : List α) (f : Nat → Nat → AttemptOutcome β)
    (worker : Nat → Option String) (cfg : BatchConfig) (order : List Nat)
    (hne : tasks ≠ []) (h1 : 0 < cfg.rate_limit_per_minute)
    (h2 : 0 < cfg.rate_limit_window) (h3 : 0 < cfg.max_workers) :
    parallel_batch_processor tasks f worker cfg order =
      Except.ok
        { results := order.filterMap (collectedResult f worker cfg tasks)
          stats :=
            { total_tasks := tasks.length
              completed_tasks :=
                ((order.filterMap (collectedResult f worker cfg tasks)).filter
                  (fun r => r.success)).length
              failed_tasks :=
                ((order.filterMap (collectedResult f worker cfg tasks)).filter
                  (fun r => !r.success)).length }
          successful_results :=
            ((order.filterMap (collectedResult f worker cfg tasks)).filter
              (fun r => r.success)).map (fun r => r.data)
          failed_tasks :=
            (order.filterMap (collectedResult f worker cfg tasks)).filter
              (fun r => !r.success) } := by
  have hE : tasks.isEmpty = false := by
    cases tasks with
    | nil => exact absurd rfl hne
    | cons a t => rfl
  unfold parallel_batch_processor
  rw [hE]
  simp [not_le.mpr h1, not_le.mpr h2, not_le.mpr h3]

/-- The multiset of `task_data` values across the collected results is exactly
the multiset of inputs, whenever the completion order enumerates each
submitted index exactly once. -/
theorem collected_task_data_perm (f : Nat → Nat → AttemptOutcome β)
    (worker : Nat → Option String) (cfg : BatchConfig) (tasks : List α) (order : List Nat)
    (hord : order.Perm (List.range tasks.length)) :
    ((order.filterMap (collectedResult f worker cfg tasks)).map
      (fun r => r.task_data)).Perm tasks := by
  rw [List.map_filterMap]
  have hfun : (fun i => (collectedResult f worker cfg tasks i).map (fun r => r.task_data))
      = fun i => tasks[i]? := by
    funext i
    exact collectedResult_task_data f worker cfg tasks i
  rw [hfun]
  have := hord.filterMap (fun i => tasks[i]?)
  rwa [filterMap_getElem_range] at this

/-! ### Claims about the orchestrator -/

/-- C1 counterexample: with non-empty inputs `[0, 1]`, an always-succeeding
task function, the default (valid) configuration, and completion order
`[1, 0]` (a permutation of the submitted indices), the report's `results`
carry `task_data = [1, 0]`: `results[0].task_data = 1 ≠ 0 = inputs[0]`, so the
results sequence is NOT index-aligned with the input sequence for every
completion order. -/
theorem pbp_results_not_input_ordered :
    (parallel_batch_processor [(0 : Nat), 1]
        (fun _ _ => (AttemptOutcome.returns (0 : Nat) 1 : AttemptOutcome Nat))
        (fun _ => none) {} [1, 0]).map
      (fun report => report.results.map (fun r => r.task_data)) = Except.ok [1, 0] ∧
    ([1, 0] : List Nat) ≠ [0, 1] := by
  constructor
  · rfl
  · decide

/-- C1 (amended): for every non-empty input list, a valid configuration, and
any completion order enumerating each submitted index exactly once, the
report's `results` have the same length as the inputs and are the per-input
results arranged in completion order — `results.map task_data` equals the
completion order's arrangement of the inputs, hence a permutation of the
inputs; index-alignment with the input sequence holds only when the
completion order is the identity. -/
theorem pbp_results_in_completion_order (tasks : List α) (f : Nat → Nat → AttemptOutcome β)
    (worker : Nat → Option String) (cfg : BatchConfig) (order : List Nat)
    (hne : tasks ≠ []) (hord : order.Perm (List.range tasks.length))
    (h1 : 0 < cfg.max_workers) (h2 : 0 < cfg.rate_limit_per_minute)
    (h3 : 0 < cfg.rate_limit_window) :
    ∃ report : BatchReport α β,
      parallel_batch_processor tasks f worker cfg order = Except.ok report ∧
      report.results.length = tasks.length ∧
      report.results.map (fun r => r.task_data) = order.filterMap (fun i => tasks[i]?) ∧
      (report.results.map (fun r => r.task_data)).Perm tasks := by
  rw [pbp_nonempty_ok tasks f worker cfg order hne h2 h3 h1]
  have hperm := collected_task_data_perm f worker cfg tasks order hord
  refine ⟨_, rfl, ?_, ?_, hperm⟩
  · simpa using hperm.length_eq
  · rw [List.map_filterMap]
    have hfun : (fun i => (collectedResult f worker cfg tasks i).map (fun r => r.task_data))
        = fun i => tasks[i]? := by
      funext i
      exact collectedResult_task_data f worker cfg tasks i
    rw [hfun]

/-- Witness for C1 (amended) at inputs `[10, 20]`, completion order `[1, 0]`,
and the default configuration. -/
theorem pbp_results_in_completion_order_witness :
    ([(10 : Nat), 20] ≠ []) ∧
    ([1, 0] : List Nat).Perm (List.range 2) ∧
    (0 : Int) < ({} : BatchConfig).max_workers ∧
    (∃ report : BatchReport Nat Nat,
      parallel_batch_processor [(10 : Nat), 20]
          (fun _ _ => (AttemptOutcome.returns (0 : Nat) 1 : AttemptOutcome Nat))
          (fun _ => none) {} [1, 0] = Except.ok report ∧
      report.results.length = [(10 : Nat), 20].length ∧
      report.results.map (fun r => r.task_data)
        = ([1, 0] : List Nat).filterMap (fun i => [(10 : Nat), 20][i]?) ∧
      (report.results.map (fun r => r.task_data)).Perm [(10 : Nat), 20]) :=
  ⟨by decide, by decide, by decide,
    pbp_results_in_completion_order [(10 : Nat), 20]
      (fun _ _ => (AttemptOutcome.returns (0 : Nat) 1 : AttemptOutcome Nat))
      (fun _ => none) {} [1, 0] (by decide) (by decide) (by decide) (by decide) (by decide)⟩

/-- C2: for every input list, task-function behaviour, worker-fault pattern,
valid configuration, and completion order enumerating each submitted index
exactly once, `parallel_batch_processor` returns `ok` with a report containing
exactly one `TaskResult` per input item (the multiset of `task_data` over
`results` is exactly the multiset of inputs): task failures and worker faults
are converted into failure results, never propagated. -/
theorem pbp_complete_report (tasks : List α) (f : Nat → Nat → AttemptOutcome β)
    (worker : Nat → Option String) (cfg : BatchConfig) (order : List Nat)
    (hord : order.Perm (List.range tasks.length))
    (h1 : 0 < cfg.max_workers) (h2 : 0 < cfg.rate_limit_per_minute)
    (h3 : 0 < cfg.rate_limit_window) :
    ∃ report : BatchReport α β,
      parallel_batch_processor tasks f worker cfg order = Except.ok report ∧
      report.results.length = tasks.length ∧
      (report.results.map (fun r => r.task_data)).Perm tasks := by
  cases tasks with
  | nil => exact ⟨_, rfl, rfl, List.Perm.nil⟩
  | cons a ts =>
    rw [pbp_nonempty_ok (a :: ts) f worker cfg order (by simp) h2 h3 h1]
    have hperm := collected_task_data_perm f worker cfg (a :: ts) order hord
    exact ⟨_, rfl, by simpa using hperm.length_eq, hperm⟩

/-- Witness for C2 with a task that raises, a task that succeeds, and a worker
fault, under the default configuration. -/
theorem pbp_complete_report_witness :
    (([2, 0, 1] : List Nat).Perm (List.range 3)) ∧
    (0 : Int) < ({} : BatchConfig).max_workers ∧
    (∃ report : BatchReport Nat Nat,
      parallel_batch_processor [(10 : Nat), 20, 30]
          (fun i _ => if i = 0 then (AttemptOutcome.raises "boom" : AttemptOutcome Nat)
            else AttemptOutcome.returns (0 : Nat) 1)
          (fun i => if i = 1 then some "pool fault" else none) {} [2, 0, 1]
        = Except.ok report ∧
      report.results.length = [(10 : Nat), 20, 30].length ∧
      (report.results.map (fun r => r.task_data)).Perm [(10 : Nat), 20, 30]) :=
  ⟨by decide, by decide,
    pbp_complete_report [(10 : Nat), 20, 30]
      (fun i _ => if i = 0 then (AttemptOutcome.raises "boom" : AttemptOutcome Nat)
        else AttemptOutcome.returns (0 : Nat) 1)
      (fun i => if i = 1 then some "pool fault" else none) {} [2, 0, 1]
      (by decide) (by decide) (by decide) (by decide)⟩

/-- C3 counterexample: constructing a `BatchConfig` with every numeric field
non-positive (and `max_retries` negative) does not fail — the dataclass
initializer performs no validation and returns the config object. -/
theorem batchConfig_construct_never_fails :
    BatchConfig.construct (-1) (-1) (-1) (-1) (-1) (-1) (-1) =
      Except.ok
        { max_workers := -1, rate_limit_per_minute := -1, rate_limit_window := -1,
          request_delay := -1, max_retries := -1, retry_delay := -1, timeout := -1 } := rfl

/-- C3 (amended): `BatchConfig` construction always succeeds, with no
validation of any field; instead, for a non-empty input list, a non-positive
`rate_limit_per_minute` or `rate_limit_window` (rejected by the `RateLimiter`
constructor) or a non-positive `max_workers` (rejected by
`ThreadPoolExecutor`) makes `parallel_batch_processor` raise before any task
executes, while non-positive `retry_delay`/`timeout` and negative
`max_retries` are not rejected anywhere. -/
theorem batchConfig_validation_deferred (mw rlpm rlw : Int) (rd : ℚ) (mr : Int)
    (rdel t : ℚ) (tasks : List α) (f : Nat → Nat → AttemptOutcome β)
    (worker : Nat → Option String) (order : List Nat) (hne : tasks ≠ [])
    (hbad : rlpm ≤ 0 ∨ rlw ≤ 0 ∨ mw ≤ 0) :
    BatchConfig.construct mw rlpm rlw rd mr rdel t =
      Except.ok ⟨mw, rlpm, rlw, rd, mr, rdel, t⟩ ∧
    ∃ msg, parallel_batch_processor tasks f worker ⟨mw, rlpm, rlw, rd, mr, rdel, t⟩ order
      = Except.error msg := by
  refine ⟨rfl, ?_⟩
  have hE : tasks.isEmpty = false := by
    cases tasks with
    | nil => exact absurd rfl hne
    | cons a ts => rfl
  unfold parallel_batch_processor
  rw [hE]
  by_cases hA : rlpm ≤ 0
  · exact ⟨"max_requests 必须大于 0", by simp [hA]⟩
  · by_cases hB : rlw ≤ 0
    · exact ⟨"window_seconds 必须大于 0", by simp [hA, hB]⟩
    · have hC : mw ≤ 0 := by tauto
      exact ⟨"max_workers must be greater than 0", by simp [hA, hB, hC]⟩

/-- Witness for C3 (amended): the all-invalid config constructs fine, and the
batch call on `[7]` then raises before executing anything. -/
theorem batchConfig_validation_deferred_witness :
    ([(7 : Nat)] ≠ []) ∧ ((-1 : Int) ≤ 0 ∨ (-1 : Int) ≤ 0 ∨ (-1 : Int) ≤ 0) ∧
    (BatchConfig.construct (-1) (-1) (-1) (-1) (-1) (-1) (-1) =
      Except.ok ⟨-1, -1, -1, -1, -1, -1, -1⟩ ∧
    ∃ msg, parallel_batch_processor [(7 : Nat)]
        (fun _ _ => (AttemptOutcome.returns (0 : Nat) 1 : AttemptOutcome Nat))
        (fun _ => none) ⟨-1, -1, -1, -1, -1, -1, -1⟩ []
      = Except.error msg) :=
  ⟨by decide, Or.inl (by decide),
    batchConfig_validation_deferred (-1) (-1) (-1) (-1) (-1) (-1) (-1) [(7 : Nat)]
      (fun _ _ => (AttemptOutcome.returns (0 : Nat) 1 : AttemptOutcome Nat))
      (fun _ => none) [] (by decide) (Or.inl (by decide))⟩

/-! ### Helper lemmas about `simple_parallel_map` -/

/-- `find?` on an association list with pairwise-distinct keys returns the
unique entry for a present key. -/
theorem find_of_nodup_keys (m : List (String × TaskResult α β)) (key : String)
    (v : TaskResult α β) (hnd : (m.map Prod.fst).Nodup) (hmem : (key, v) ∈ m) :
    m.find? (fun p => p.1 == key) = some (key, v) := by
  induction m with
  | nil => cases hmem
  | cons p rest ih =>
    by_cases hp : p.1 = key
    · rw [List.find?_cons_of_pos _ (by simp [hp])]
      rcases List.mem_cons.mp hmem with heq | hrest
      · rw [heq]
      · exfalso
        have hkey : key ∈ rest.map Prod.fst :=
          List.mem_map.mpr ⟨(key, v), hrest, rfl⟩
        have := (List.nodup_cons.mp hnd).1
        rw [hp] at this
        exact this hkey
    · rw [List.find?_cons_of_neg _ (by simp [hp])]
      rcases List.mem_cons.mp hmem with heq | hrest
      · exact absurd (by rw [← heq]) hp
      · exact ih (List.nodup_cons.mp hnd).2 hrest

/-- The dict comprehension lookup: with pairwise-distinct keys, `dictGet`
returns the unique entry for a present key. -/
theorem dictGet_of_nodup (m : List (String × TaskResult α β)) (key : String)
    (v : TaskResult α β) (hnd : (m.map Prod.fst).Nodup) (hmem : (key, v) ∈ m) :
    dictGet m key = some v := by
  unfold dictGet
  rw [find_of_nodup_keys m.reverse key v
    (by rw [List.map_reverse]; exact List.nodup_reverse.mpr hnd) (List.mem_reverse.mpr hmem)]
  rfl

/-- With `max_retries = 1` the retry loop is a single attempt that never
sleeps (so it always returns normally): the result is determined by the first
invocation's outcome and the soft-timeout check. -/
theorem exec_single_retry_result (f : Nat → AttemptOutcome β) (td : α) (cfg : BatchConfig)
    (h1 : cfg.max_retries = 1) :
    ∃ out : ExecOutput α β, execute_single_task_with_retry f td cfg = Except.ok out ∧
      out.result =
        match f 0 with
        | AttemptOutcome.raises m =>
          { success := false, data := none, error := some m, attempts := 1,
            task_data := td, execution_time := none }
        | AttemptOutcome.returns v e =>
          if cfg.timeout < e then
            { success := false, data := none, error := some (timeoutMsg e cfg.timeout),
              attempts := 1, task_data := td, execution_time := none }
          else
            { success := true, data := some v, error := none, attempts := 1,
              task_data := td, execution_time := some e } := by
  unfold execute_single_task_with_retry
  rw [h1]
  have hnc : ¬ ((0 : Nat) : Int) < cfg.max_retries - 1 := by
    rw [h1]; norm_num
  rcases hf : f 0 with m | ⟨v, e⟩
  · rw [show (1 : Int).toNat = 0 + 1 from rfl,
      executeGo_step_raises f cfg m 0 0 (TaskResult.init td) [] hf, if_neg hnc, executeGo]
    refine ⟨_, rfl, ?_⟩
    simp [TaskResult.init]
  · by_cases he : cfg.timeout < e
    · rw [show (1 : Int).toNat = 0 + 1 from rfl,
        executeGo_step_timeout f cfg v e 0 0 (TaskResult.init td) [] hf he, if_neg hnc,
        executeGo]
      refine ⟨_, rfl, ?_⟩
      simp [TaskResult.init, he]
    · rw [show (1 : Int).toNat = 0 + 1 from rfl,
        executeGo_step_success f cfg v e 0 0 (TaskResult.init td) [] hf (not_lt.mp he)]
      refine ⟨_, rfl, ?_⟩
      simp [TaskResult.init, he]

/-! ### Claim about `simple_parallel_map` -/

/-- C10: `simple_parallel_map` matches results back to inputs by
`str(task_data)`.  For every input list with pairwise-distinct string
representations, any per-task first-attempt behaviour, a valid worker count
and any completion order, the output is in input order with, at each position,
the task value when the single attempt succeeds within the default 30-second
timeout and `None` when it fails; in particular an always-succeeding task
function yields `[f(x) for x in tasks]` and a failed task yields `None` at its
position. -/
theorem simple_parallel_map_by_str (tasks : List α) (strFn : α → String)
    (f : Nat → Nat → AttemptOutcome β) (w : Int) (order : List Nat)
    (hstr : (tasks.map strFn).Nodup) (hord : order.Perm (List.range tasks.length))
    (hw : 0 < w) :
    simple_parallel_map tasks strFn f (fun _ => none) w order =
      Except.ok ((List.range tasks.length).map (fun i =>
        match f i 0 with
        | AttemptOutcome.raises _ => none
        | AttemptOutcome.returns v e => if (30 : ℚ) < e then none else some v)) := by
  cases tasks with
  | nil => rfl
  | cons a ts =>
    unfold simple_parallel_map
    rw [pbp_nonempty_ok (a :: ts) f (fun _ => none) (spmConfig w) order (by simp)
      (by show (0 : Int) < w * 60; omega) (by show (0 : Int) < 60; decide) hw]
    have hperm := collected_task_data_perm f (fun _ => none) (spmConfig w) (a :: ts) order hord
    set all := order.filterMap (collectedResult f (fun _ => none) (spmConfig w) (a :: ts))
      with hall
    have hkeys : ((all.map (fun r => (strFn r.task_data, r))).map Prod.fst).Nodup := by
      rw [List.map_map,
        show (Prod.fst ∘ fun r : TaskResult α β => (strFn r.task_data, r))
          = fun r : TaskResult α β => strFn r.task_data from rfl,
        show (fun r : TaskResult α β => strFn r.task_data)
          = strFn ∘ (fun r : TaskResult α β => r.task_data) from rfl,
        ← List.map_map]
      exact ((hperm.map strFn).nodup_iff).mpr hstr
    simp only [Except.map]
    apply congrArg
    apply List.ext_getElem
    · simp
    · intro i h1 h2
      rw [List.length_map] at h1
      have hi : i < (a :: ts).length := h1
      simp only [List.getElem_map, List.getElem_range]
      obtain ⟨out, hout, houtres⟩ :=
        exec_single_retry_result (f i) ((a :: ts)[i]) (spmConfig w) rfl
      have hres : collectedResult f (fun _ => none) (spmConfig w) (a :: ts) i
          = some out.result := by
        simp [collectedResult, List.getElem?_eq_getElem hi, hout]
      have hmemall : out.result ∈ all := by
        rw [hall]
        exact List.mem_filterMap.mpr ⟨i, hord.mem_iff.mpr (List.mem_range.mpr hi), hres⟩
      have htd : out.result.task_data = (a :: ts)[i] :=
        execute_ok_task_data (f i) ((a :: ts)[i]) (spmConfig w) out hout
      have hentry : (strFn ((a :: ts)[i]), out.result)
          ∈ all.map (fun r => (strFn r.task_data, r)) := by
        have hpre : (strFn out.result.task_data, out.result)
            ∈ all.map (fun r => (strFn r.task_data, r)) :=
          List.mem_map.mpr ⟨_, hmemall, rfl⟩
        rwa [htd] at hpre
      rw [dictGet_of_nodup _ _ _ hkeys hentry, houtres]
      have ht30 : (spmConfig w).timeout = (30 : ℚ) := rfl
      rcases hf0 : f i 0 with m | ⟨v, e⟩
      · rfl
      · by_cases he : (30 : ℚ) < e <;> simp [ht30, he]

/-- Witness for C10: three string inputs (distinct `str`), the middle task
failing, worker count 10, completion order `[2, 0, 1]`; the output is in input
order with `None` at the failed position. -/
theorem simple_parallel_map_by_str_witness :
    ((["a", "b", "c"].map (fun s : String => s)).Nodup) ∧
    (([2, 0, 1] : List Nat).Perm (List.range (["a", "b", "c"] : List String).length)) ∧
    ((0 : Int) < 10) ∧
    simple_parallel_map ["a", "b", "c"] (fun s => s)
        (fun i _ => if i = 1 then (AttemptOutcome.raises "boom" : AttemptOutcome Nat)
          else AttemptOutcome.returns i 1)
        (fun _ => none) 10 [2, 0, 1]
      = Except.ok [some 0, none, some 2] := by
  refine ⟨by decide, by decide, by decide, ?_⟩
  rw [simple_parallel_map_by_str ["a", "b", "c"] (fun s => s)
    (fun i _ => if i = 1 then (AttemptOutcome.raises "boom" : AttemptOutcome Nat)
      else AttemptOutcome.returns i 1) 10 [2, 0, 1] (by decide) (by decide) (by decide)]
  rfl

/-! ### Helper lemmas about the rate limiter -/

/-- Purging a sorted timestamp log drops a prefix: the kept entries (those
still inside the window) form a suffix, and every dropped entry had already
aged past the window at the purge instant. -/
theorem purgeOld_sorted_eq_drop (c W : ℚ) :
    ∀ (l : List ℚ), l.Pairwise (· ≤ ·) →
      ∃ m, m ≤ l.length ∧ purgeOld l c W = l.drop m ∧
        ∀ j, j < m → ∀ x, l[j]? = some x → x + W ≤ c := by
  intro l
  induction l with
  | nil => exact fun _ => ⟨0, by simp, rfl, by omega⟩
  | cons a t ih =>
    intro hs
    by_cases hp : c - a < W
    · refine ⟨0, by simp, ?_, by intro j hj x hx; omega⟩
      unfold purgeOld
      have hall : ∀ b ∈ t, (fun x => decide (c - x < W)) b = true := by
        intro b hb
        have hab : a ≤ b := (List.pairwise_cons.mp hs).1 b hb
        simp only [decide_eq_true_eq]
        linarith
      rw [List.filter_cons_of_pos (by simpa using hp), List.filter_eq_self.mpr hall]
      rfl
    · obtain ⟨m, hm_le, hm_eq, hm_idx⟩ := ih (List.pairwise_cons.mp hs).2
      refine ⟨m + 1, by simpa using hm_le, ?_, ?_⟩
      · unfold purgeOld at hm_eq ⊢
        rw [List.filter_cons_of_neg (by simpa using hp), hm_eq]
        rfl
      · intro j hj x hx
        cases j with
        | zero =>
          have hxa : x = a := (by simpa using hx : a = x).symm
          rw [hxa]
          linarith [not_lt.mp hp]
        | succ k =>
          exact hm_idx k (by omega) x (by simpa using hx)

/-- The head of a non-trivial suffix, as read by `headD`. -/
theorem headD_drop (l : List ℚ) (d : Nat) (hd : d < l.length) :
    (l.drop d).headD 0 = l[d] := by
  rw [List.headD_eq_head?, List.head?_eq_getElem?, List.getElem?_drop,
    Nat.add_zero, List.getElem?_eq_getElem hd]
  rfl

/-- The limiter's configuration fields are untouched by `wait_if_needed`. -/
theorem wait_if_needed_config (st : RateLimiterState) (c : RLCall) :
    (wait_if_needed st c).max_requests = st.max_requests ∧
    (wait_if_needed st c).window_seconds = st.window_seconds :=
  ⟨rfl, rfl⟩

/-- One serialized call from an invariant state: the invariant is preserved
with the new admission instant appended, and — when at least `N` admissions
were already recorded — the new admission instant lies at least a full window
after the `N`-th most recent one. -/
theorem limiter_step_analysis (N : Int) (hN : 1 ≤ N) (W : ℚ) (hW : 0 < W)
    (past : List ℚ) (tprev : ℚ) (st : RateLimiterState) (c : RLCall)
    (hinv : LimiterInv N W past tprev st) (hok : CallOk st tprev c) :
    LimiterInv N W (past ++ [c.t3]) c.t3 (wait_if_needed st c) ∧
    (N.toNat ≤ past.length →
      ∀ x, past[past.length - N.toNat]? = some x → x + W ≤ c.t3) := by
  obtain ⟨hNmax, hwin, hsort, hbnd, d, hd_le, hreq, hlen_le, hexp⟩ := hinv
  obtain ⟨h01, h12, h23, hsleep⟩ := hok
  have h13 : c.t1 ≤ c.t3 := le_trans h12 h23
  have htp3 : tprev ≤ c.t3 := le_trans h01 h13
  have hdsort : (past.drop d).Pairwise (· ≤ ·) := hsort.sublist (List.drop_sublist d past)
  obtain ⟨m, hm_le, hm_eq, hm_idx⟩ := purgeOld_sorted_eq_drop c.t1 W (past.drop d) hdsort
  rw [List.length_drop] at hm_le
  have hl1 : purgeOld st.requests_times c.t1 (st.window_seconds : ℚ)
      = past.drop (d + m) := by
    rw [hreq, hwin, hm_eq, List.drop_drop]
  have hd1_le : d + m ≤ past.length := by omega
  have hlen1 : (past.drop (d + m)).length = past.length - (d + m) :=
    List.length_drop _ _
  have hlen1_le : ((past.drop (d + m)).length : Int) ≤ N := by
    have hfle : (purgeOld st.requests_times c.t1 (st.window_seconds : ℚ)).length
        ≤ st.requests_times.length := List.length_filter_le _ _
    rw [hl1] at hfle
    omega
  have hexp1 : ∀ j, j < d + m → ∀ x, past[j]? = some x → x + W ≤ c.t1 := by
    intro j hj x hx
    by_cases hjd : j < d
    · exact le_trans (hexp j hjd x hx) h01
    · refine hm_idx (j - d) (by omega) x ?_
      rw [List.getElem?_drop, show d + (j - d) = j from by omega]
      exact hx
  have hsorted3 : (past ++ [c.t3]).Pairwise (· ≤ ·) := by
    rw [List.pairwise_append]
    refine ⟨hsort, List.pairwise_singleton _ _, fun a ha b hb => ?_⟩
    rw [List.mem_singleton.mp hb]
    exact le_trans (hbnd a ha) htp3
  have hbnd3 : ∀ x ∈ past ++ [c.t3], x ≤ c.t3 := by
    intro x hx
    rcases List.mem_append.mp hx with h | h
    · exact le_trans (hbnd x h) htp3
    · rw [List.mem_singleton.mp h]
  by_cases hbr : st.max_requests
      ≤ ((purgeOld st.requests_times c.t1 (st.window_seconds : ℚ)).length : Int)
  · -- rate limit reached: the call sleeps, then re-purges
    have hbrX := hbr
    rw [hl1, hNmax] at hbrX
    have hlenN : ((past.drop (d + m)).length : Int) = N := le_antisymm hlen1_le hbrX
    have hd1_lt : d + m < past.length := by omega
    have hhead : (past.drop (d + m)).headD 0 = past[d + m] := headD_drop past (d + m) hd1_lt
    have hne1 : past.drop (d + m) ≠ [] := by
      intro hnil
      rw [hnil] at hlen1
      simp at hlen1
      omega
    have hmem0 : past[d + m] ∈ past.drop (d + m) := by
      rcases hxd : past.drop (d + m) with _ | ⟨a, t⟩
      · exact absurd hxd hne1
      · have : (past.drop (d + m)).headD 0 = a := by rw [hxd]; rfl
        rw [hhead] at this
        rw [this]
        exact List.mem_cons_self a t
    have hold_fresh : c.t1 - past[d + m] < W := by
      have hmem1 : past[d + m] ∈ purgeOld st.requests_times c.t1 (st.window_seconds : ℚ) := by
        rw [hl1]; exact hmem0
      have hf := List.of_mem_filter hmem1
      simp only [decide_eq_true_eq] at hf
      rwa [hwin] at hf
    have hwa : waitAmount st c.t1 = past[d + m] + W - c.t1 + 1 / 100 := by
      unfold waitAmount
      rw [hl1, hhead, hwin]
    have hwa_pos : 0 < waitAmount st c.t1 := by rw [hwa]; linarith
    have ht2 : c.t1 + waitAmount st c.t1 ≤ c.t2 := hsleep hbr hwa_pos
    have hT2 : past[d + m] + W + 1 / 100 ≤ c.t2 := by
      rw [hwa] at ht2; linarith
    have hsort1 : (past.drop (d + m)).Pairwise (· ≤ ·) :=
      hsort.sublist (List.drop_sublist _ _)
    obtain ⟨m2, hm2_le, hm2_eq, hm2_idx⟩ :=
      purgeOld_sorted_eq_drop c.t2 W (past.drop (d + m)) hsort1
    rw [List.length_drop] at hm2_le
    have hl2 : purgeOld (past.drop (d + m)) c.t2 W = past.drop (d + m + m2) := by
      rw [hm2_eq, List.drop_drop]
    have hp2 : ¬ (c.t2 - past[d + m] < W) := by linarith
    have hshrink : (purgeOld (past.drop (d + m)) c.t2 W).length
        < (past.drop (d + m)).length :=
      List.length_filter_lt_length_iff_exists.mpr ⟨past[d + m], hmem0, by simpa using hp2⟩
    rw [hl2] at hshrink
    have hstep : (wait_if_needed st c).requests_times
        = past.drop (d + m + m2) ++ [c.t3] := by
      simp only [wait_if_needed]
      rw [hl1, if_pos (show st.max_requests ≤ ((past.drop (d + m)).length : Int) from by
        rw [hNmax]; exact hbrX), if_pos hwa_pos, hwin, hl2]
    have hd2_le : d + m + m2 ≤ past.length := by omega
    refine ⟨⟨hNmax, hwin, hsorted3, hbnd3, d + m + m2, ?_, ?_, ?_, ?_⟩, ?_⟩
    · rw [List.length_append]
      simp only [List.length_singleton]
      omega
    · rw [hstep, List.drop_append_of_le_length hd2_le]
    · rw [hstep, List.length_append]
      simp only [List.length_singleton]
      have hlen2 : (past.drop (d + m + m2)).length < (past.drop (d + m)).length := hshrink
      omega
    · intro j hj x hx
      have hjp : j < past.length := by omega
      rw [List.getElem?_append_left hjp] at hx
      by_cases hj1 : j < d + m
      · exact le_trans (hexp1 j hj1 x hx) h13
      · refine le_trans (hm2_idx (j - (d + m)) (by omega) x ?_) h23
        rw [List.getElem?_drop, show d + m + (j - (d + m)) = j from by omega]
        exact hx
    · intro hlen x hx
      have hdm : d + m = past.length - N.toNat := by omega
      rw [← hdm] at hx
      have hxv : x = past[d + m] := by
        rw [List.getElem?_eq_getElem hd1_lt] at hx
        exact (Option.some_inj.mp hx).symm
      rw [hxv]
      linarith
  · -- under the limit: no sleep, the purged log plus the new stamp
    have hbrX := hbr
    rw [hl1] at hbrX
    have hstep : (wait_if_needed st c).requests_times
        = past.drop (d + m) ++ [c.t3] := by
      simp only [wait_if_needed]
      rw [hl1, if_neg hbrX]
    have hlen_new : ((past.drop (d + m)).length : Int) < N := by
      rw [hNmax] at hbrX
      omega
    refine ⟨⟨hNmax, hwin, hsorted3, hbnd3, d + m, ?_, ?_, ?_, ?_⟩, ?_⟩
    · rw [List.length_append]
      simp only [List.length_singleton]
      omega
    · rw [hstep, List.drop_append_of_le_length hd1_le]
    · rw [hstep, List.length_append]
      simp only [List.length_singleton]
      omega
    · intro j hj x hx
      have hjp : j < past.length := by omega
      rw [List.getElem?_append_left hjp] at hx
      exact le_trans (hexp1 j hj x hx) h13
    · intro hlen x hx
      have hj1 : past.length - N.toNat < d + m := by omega
      exact le_trans (hexp1 (past.length - N.toNat) hj1 x hx) h13

/-- Unpacking a successful `RateLimiter` construction: both bounds are
positive and the state starts with an empty log. -/
theorem construct_ok_elim (maxReq win : Int) (st0 : RateLimiterState)
    (hcon : RateLimiter.construct maxReq win = Except.ok st0) :
    1 ≤ maxReq ∧ 1 ≤ win ∧
    st0 = { max_requests := maxReq, window_seconds := win,
            requests_times := [], total_api_calls := 0 } := by
  unfold RateLimiter.construct at hcon
  by_cases h1 : maxReq ≤ 0
  · rw [if_pos h1] at hcon; cases hcon
  · rw [if_neg h1] at hcon
    by_cases h2 : win ≤ 0
    · rw [if_pos h2] at hcon; cases hcon
    · rw [if_neg h2] at hcon
      exact ⟨by omega, by omega, (Except.ok.inj hcon).symm⟩

/-- The invariant holds at a freshly constructed limiter. -/
theorem limiterInv_init (maxReq win : Int) (hmr : 1 ≤ maxReq) (t0 : ℚ) :
    LimiterInv maxReq (win : ℚ) [] t0
      { max_requests := maxReq, window_seconds := win,
        requests_times := [], total_api_calls := 0 } := by
  refine ⟨rfl, rfl, List.Pairwise.nil, by simp, 0, by simp, rfl, ?_, ?_⟩
  · simp
    omega
  · intro j hj x hx
    omega

/-- The invariant, and the next call's validity, at any point of a valid run. -/
theorem limiterInv_mid (N : Int) (hN : 1 ≤ N) (W : ℚ) (hW : 0 < W) :
    ∀ (cs1 : List RLCall) (past : List ℚ) (tprev : ℚ) (st : RateLimiterState)
      (c : RLCall) (cs2 : List RLCall),
      LimiterInv N W past tprev st → ValidSeq st tprev (cs1 ++ c :: cs2) →
      ∃ past2 tprev2, LimiterInv N W past2 tprev2 (runLimiter st cs1) ∧
        CallOk (runLimiter st cs1) tprev2 c := by
  intro cs1
  induction cs1 with
  | nil =>
    intro past tprev st c cs2 hinv hv
    exact ⟨past, tprev, hinv, hv.1⟩
  | cons c1 cs1 ih =>
    intro past tprev st c cs2 hinv hv
    obtain ⟨hok1, hrest⟩ := hv
    obtain ⟨hinv2, _⟩ := limiter_step_analysis N hN W hW past tprev st c1 hinv hok1
    exact ih _ _ _ c cs2 hinv2 hrest

/-- The admission-gap property over a whole valid run: from an invariant
state, any two recorded admission instants `N` apart (within the combined
past-and-future admission sequence, the later one among the new calls) are at
least a window apart. -/
theorem limiter_gap_all (N : Int) (hN : 1 ≤ N) (W : ℚ) (hW : 0 < W) :
    ∀ (cs : List RLCall) (past : List ℚ) (tprev : ℚ) (st : RateLimiterState),
      LimiterInv N W past tprev st → ValidSeq st tprev cs →
      ∀ i x y, past.length ≤ i + N.toNat →
        (past ++ cs.map (fun c => c.t3))[i]? = some x →
        (past ++ cs.map (fun c => c.t3))[i + N.toNat]? = some y →
        x + W ≤ y := by
  intro cs
  induction cs with
  | nil =>
    intro past tprev st hinv hv i x y hge hx hy
    rw [List.map_nil, List.append_nil, List.getElem?_eq_none hge] at hy
    cases hy
  | cons c cs ih =>
    intro past tprev st hinv hv i x y hge hx hy
    obtain ⟨hok, hrest⟩ := hv
    obtain ⟨hinv2, hgap⟩ := limiter_step_analysis N hN W hW past tprev st c hinv hok
    have hn1 : 1 ≤ N.toNat := by omega
    rw [List.map_cons] at hx hy
    by_cases heq : i + N.toNat = past.length
    · have hilt : i < past.length := by omega
      rw [List.getElem?_append_left hilt] at hx
      rw [List.getElem?_append_right (by omega), show i + N.toNat - past.length = 0
        from by omega] at hy
      have hyv : y = c.t3 := by simpa using hy.symm
      rw [hyv]
      refine hgap (by omega) x ?_
      rw [show past.length - N.toNat = i from by omega]
      exact hx
    · have hsplit : past ++ c.t3 :: cs.map (fun c => c.t3)
          = (past ++ [c.t3]) ++ cs.map (fun c => c.t3) := by
        rw [List.append_assoc, List.singleton_append]
      rw [hsplit] at hx hy
      refine ih (past ++ [c.t3]) c.t3 (wait_if_needed st c) hinv2 hrest i x y ?_ hx hy
      rw [List.length_append]
      simp only [List.length_singleton]
      omega

/-- Freshness after one call: every entry of the log immediately after
`wait_if_needed` lies strictly inside the window as measured at the call's
last purge instant. -/
theorem wait_if_needed_fresh (st : RateLimiterState) (c : RLCall)
    (hW : 0 < (st.window_seconds : ℚ)) (h12 : c.t1 ≤ c.t2) (h23 : c.t2 ≤ c.t3) :
    ∀ t ∈ (wait_if_needed st c).requests_times,
      finalCheckTime st c - t < (st.window_seconds : ℚ) := by
  intro t ht
  simp only [wait_if_needed] at ht
  unfold finalCheckTime
  by_cases hc1 : st.max_requests
      ≤ ((purgeOld st.requests_times c.t1 (st.window_seconds : ℚ)).length : Int)
  · by_cases hc2 : 0 < waitAmount st c.t1
    · rw [if_pos ⟨hc1, hc2⟩]
      rw [if_pos hc1, if_pos hc2] at ht
      rcases List.mem_append.mp ht with h | h
      · have hf := List.of_mem_filter h
        simpa using hf
      · rw [List.mem_singleton.mp h]
        linarith
    · rw [if_neg (by tauto)]
      rw [if_pos hc1, if_neg hc2] at ht
      rcases List.mem_append.mp ht with h | h
      · have hf := List.of_mem_filter h
        simpa using hf
      · rw [List.mem_singleton.mp h]
        linarith
  · rw [if_neg (by tauto)]
    rw [if_neg hc1] at ht
    rcases List.mem_append.mp ht with h | h
    · have hf := List.of_mem_filter h
      simpa using hf
    · rw [List.mem_singleton.mp h]
      linarith

/-! ### Claims about the rate limiter -/

/-- C7: for a `RateLimiter` constructed with positive `max_requests` and
`window_seconds`, immediately after every completed `wait_if_needed` call in a
physically valid serialized run, the recorded timestamp list holds at most
`max_requests` entries, and every entry lies strictly inside the trailing
window as measured at that call's last purge instant (entries older than the
window having been purged by the admission check). -/
theorem rateLimiter_window_invariant (maxReq win : Int) (st0 : RateLimiterState)
    (hcon : RateLimiter.construct maxReq win = Except.ok st0) (t0 : ℚ)
    (cs1 : List RLCall) (c : RLCall) (cs2 : List RLCall)
    (hv : ValidSeq st0 t0 (cs1 ++ c :: cs2)) :
    (((wait_if_needed (runLimiter st0 cs1) c).requests_times.length : Int) ≤ maxReq) ∧
    (∀ t ∈ (wait_if_needed (runLimiter st0 cs1) c).requests_times,
      finalCheckTime (runLimiter st0 cs1) c - t < (win : ℚ)) := by
  obtain ⟨hmr, hwn, hst0⟩ := construct_ok_elim maxReq win st0 hcon
  have hWpos : (0 : ℚ) < (win : ℚ) := by exact_mod_cast (by omega : (0 : Int) < win)
  have hinv0 : LimiterInv maxReq (win : ℚ) [] t0 st0 := by
    rw [hst0]; exact limiterInv_init maxReq win hmr t0
  obtain ⟨past2, tprev2, hinv2, hok2⟩ :=
    limiterInv_mid maxReq hmr (win : ℚ) hWpos cs1 [] t0 st0 c cs2 hinv0 hv
  have hwin2 : ((runLimiter st0 cs1).window_seconds : ℚ) = (win : ℚ) := hinv2.2.1
  constructor
  · obtain ⟨hinv3, _⟩ :=
      limiter_step_analysis maxReq hmr (win : ℚ) hWpos past2 tprev2 _ c hinv2 hok2
    obtain ⟨_, _, _, _, d, _, _, hlen, _⟩ := hinv3
    exact hlen
  · intro t ht
    have hf := wait_if_needed_fresh (runLimiter st0 cs1) c
      (by rw [hwin2]; exact hWpos) hok2.2.1 hok2.2.2.1 t ht
    rwa [hwin2] at hf

/-- Witness for C7: limiter `N = 1`, `W = 1`, first call of a two-call valid
trace. -/
theorem rateLimiter_window_invariant_witness :
    (RateLimiter.construct 1 1 = Except.ok (RateLimiter.initState 1 1)) ∧
    ValidSeq (RateLimiter.initState 1 1) 0
      ([] ++ ⟨0, 0, 0⟩ :: [⟨0, 101 / 100, 101 / 100⟩]) ∧
    ((((wait_if_needed (runLimiter (RateLimiter.initState 1 1) [])
          ⟨0, 0, 0⟩).requests_times.length : Int) ≤ 1) ∧
      (∀ t ∈ (wait_if_needed (runLimiter (RateLimiter.initState 1 1) [])
          ⟨0, 0, 0⟩).requests_times,
        finalCheckTime (runLimiter (RateLimiter.initState 1 1) []) ⟨0, 0, 0⟩ - t
          < ((1 : Int) : ℚ))) := by
  have hv : ValidSeq (RateLimiter.initState 1 1) 0
      ([] ++ ⟨0, 0, 0⟩ :: [⟨0, 101 / 100, 101 / 100⟩]) := by
    simp [RateLimiter.initState, ValidSeq, CallOk, wait_if_needed, purgeOld, waitAmount]
    norm_num
  exact ⟨rfl, hv,
    rateLimiter_window_invariant 1 1 _ rfl 0 [] ⟨0, 0, 0⟩ [⟨0, 101 / 100, 101 / 100⟩] hv⟩

/-- C8: for a limiter with `max_requests = N` and `window_seconds = W`, in any
physically valid serialized sequence of `wait_if_needed` calls, the recorded
admission instant of call `i + N` is at least `W` seconds after that of call
`i` (0-based; equivalently, the `i`-th admission for `i > N`, 1-based, occurs
no earlier than `W` seconds after the `(i-N)`-th). -/
theorem rateLimiter_admission_gap (maxReq win : Int) (st0 : RateLimiterState)
    (hcon : RateLimiter.construct maxReq win = Except.ok st0) (t0 : ℚ)
    (cs : List RLCall) (hv : ValidSeq st0 t0 cs) (i : Nat) (x y : ℚ)
    (hx : (cs.map (fun c => c.t3))[i]? = some x)
    (hy : (cs.map (fun c => c.t3))[i + maxReq.toNat]? = some y) :
    x + (win : ℚ) ≤ y := by
  obtain ⟨hmr, hwn, hst0⟩ := construct_ok_elim maxReq win st0 hcon
  have hWpos : (0 : ℚ) < (win : ℚ) := by exact_mod_cast (by omega : (0 : Int) < win)
  have hinv0 : LimiterInv maxReq (win : ℚ) [] t0 st0 := by
    rw [hst0]; exact limiterInv_init maxReq win hmr t0
  refine limiter_gap_all maxReq hmr (win : ℚ) hWpos cs [] t0 st0 hinv0 hv i x y
    (by simp) ?_ ?_
  · simpa using hx
  · simpa using hy

/-- Witness for C8: limiter `N = 1`, `W = 1`, a valid two-call trace whose
second admission is forced to `1.01`, at least `1` second after the first. -/
theorem rateLimiter_admission_gap_witness :
    (RateLimiter.construct 1 1 = Except.ok (RateLimiter.initState 1 1)) ∧
    ValidSeq (RateLimiter.initState 1 1) 0
      [⟨0, 0, 0⟩, ⟨0, 101 / 100, 101 / 100⟩] ∧
    (([⟨0, 0, 0⟩, ⟨0, 101 / 100, 101 / 100⟩] : List RLCall).map
        (fun c => c.t3))[0]? = some 0 ∧
    (([⟨0, 0, 0⟩, ⟨0, 101 / 100, 101 / 100⟩] : List RLCall).map
        (fun c => c.t3))[0 + (1 : Int).toNat]? = some (101 / 100) ∧
    (0 : ℚ) + ((1 : Int) : ℚ) ≤ 101 / 100 := by
  have hv : ValidSeq (RateLimiter.initState 1 1) 0
      [⟨0, 0, 0⟩, ⟨0, 101 / 100, 101 / 100⟩] := by
    simp [RateLimiter.initState, ValidSeq, CallOk, wait_if_needed, purgeOld, waitAmount]
    norm_num
  refine ⟨rfl, hv, rfl, rfl, ?_⟩
  exact rateLimiter_admission_gap 1 1 _ rfl 0 _ hv 0 0 (101 / 100) rfl rfl
